import Mathlib

/-!
Shallow embedding of the signal-metric and hierarchical-aggregation engine of
the spectral-analysis app (src/PSD.py, src/PAC.py, src/analysis_utils.py).
Float values of the Python code are modelled as exact rationals wherever only
field-and-order operations occur, and as real numbers where square roots,
logarithms or pi enter.  Nested Python dicts are modelled as association
lists; the reserved aggregation keys that the engine injects in place are
modelled as optional summary fields next to the data entries.
-/

namespace SpecApp

/-- Arithmetic mean of a list (`np.mean` on a 1-d array). -/
def meanQ (l : List ℚ) : ℚ := l.sum / l.length

/-- Sample variance with one delta degree of freedom, as used by
`scipy.stats.sem`. -/
def varQ (l : List ℚ) : ℚ :=
  (l.map (fun x => (x - meanQ l) ^ 2)).sum / ((l.length : ℚ) - 1)

/-- Standard error of the mean, `scipy.stats.sem`: sample standard deviation
(ddof 1) divided by the square root of the sample size. -/
noncomputable def semQ (l : List ℚ) : ℝ :=
  Real.sqrt ((varQ l : ℝ)) / Real.sqrt (l.length : ℝ)

/-- The j-th entries of a list of rows, with the number of columns read off
the first row (`numpy` axis-0 operations on a rectangular array). -/
def colsQ (rows : List (List ℚ)) : List (List ℚ) :=
  (List.range (rows.headD []).length).map (fun j => rows.map (fun r => r.getD j 0))

/-- `np.average(rows, axis=0, weights=w)`: per column, the weighted sum divided
by the total weight. -/
def weightedAvg (rows : List (List ℚ)) (w : List ℚ) : List ℚ :=
  (colsQ rows).map (fun c => ((w.zip c).map (fun p => p.1 * p.2)).sum / w.sum)

/-- `np.mean(rows, axis=0)`. -/
def meanCols (rows : List (List ℚ)) : List ℚ := (colsQ rows).map meanQ

/-- `scipy.stats.sem(rows, axis=0)`. -/
noncomputable def semCols (rows : List (List ℚ)) : List ℝ := (colsQ rows).map semQ

/-- `np.zeros_like` for a vector of length n. -/
def zerosR (n : ℕ) : List ℝ := List.replicate n 0

/-- analysis_utils.AGGREGATION_KEYS: the reserved keys the aggregation engine
injects and every traversal skips. -/
def AGGREGATION_KEYS : List String :=
  ["mean_across_time", "mean_across_channels", "mean_across_pairs",
   "grand_mean", "grand_sem"]

/-- PAC.py generate_sliding_windows, with the window parameters already
converted to sample counts (window_size = int(duration * fs),
overlap_samples = int(window_size * overlap_ratio)).  Mirrors the Python
generator: num_windows = (len(data) - overlap_samples) // step_size windows of
data[i*step : i*step + window_size]. -/
def generate_sliding_windows (data : List α) (window_size overlap_samples : ℕ) :
    List (List α) :=
  let step_size := window_size - overlap_samples
  let num_windows := (data.length - overlap_samples) / step_size
  (List.range num_windows).map (fun i => (data.drop (i * step_size)).take window_size)

/-- `scipy.signal.windows.hann(M)` (symmetric): 0.5 - 0.5 cos(2 pi k / (M-1)). -/
noncomputable def hann (M : ℕ) : List ℝ :=
  (List.range M).map (fun k => 1 / 2 - 1 / 2 * Real.cos (2 * Real.pi * k / (M - 1)))

/-- PSD.py psd_welch with `scipy.signal.welch` abstracted as an oracle that
returns the pair (f, Pxx); psd_welch returns (Pxx, f).  If the signal is
shorter than the window, the parameters are replaced by a 1024-sample Hann
window, 512-sample overlap and nfft 1024 before the call. -/
noncomputable def psd_welch (welch : List ℝ → ℚ → List ℝ → ℕ → ℕ → List ℝ × List ℝ)
    (data : List ℝ) (fs : ℚ) (window : List ℝ) (noverlap nfft : ℕ) :
    List ℝ × List ℝ :=
  let p :=
    if data.length < window.length then welch data fs (hann 1024) 512 1024
    else welch data fs window noverlap nfft
  (p.2, p.1)

/-- PSD.py calculate_band_power: per band, `np.where`-style index selection of
the frequency bins inside the band, mean power over them (0 when none) and
`scipy.stats.sem` over them (0.0 when one or none). -/
noncomputable def calculate_band_power (psd freqs : List ℚ) (bands : List (ℚ × ℚ)) :
    List ℚ × List ℝ :=
  (bands.map (fun band =>
      let idx_band := (List.range freqs.length).filter
        (fun i => decide (band.1 ≤ freqs.getD i 0) && decide (freqs.getD i 0 ≤ band.2))
      let vals := idx_band.map (fun i => psd.getD i 0)
      if 0 < vals.length then meanQ vals else 0),
   bands.map (fun band =>
      let idx_band := (List.range freqs.length).filter
        (fun i => decide (band.1 ≤ freqs.getD i 0) && decide (freqs.getD i 0 ≤ band.2))
      let vals := idx_band.map (fun i => psd.getD i 0)
      if 1 < vals.length then semQ vals else 0))

/-- The power values whose frequency lies inside the band, read off by pairing
each power value with its frequency (the specification's formulation of the
in-band selection). -/
def inBandVals (psd freqs : List ℚ) (band : ℚ × ℚ) : List ℚ :=
  ((psd.zip freqs).filter
    (fun pf => decide (band.1 ≤ pf.2) && decide (pf.2 ≤ band.2))).map (fun pf => pf.1)

/-- A trivial stand-in for the `scipy.signal.welch` oracle, used to instantiate
parameter-routing statements at a concrete input. -/
def welchStub : List ℝ → ℚ → List ℝ → ℕ → ℕ → List ℝ × List ℝ :=
  fun _ _ _ _ _ => ([], [])

/-- Numeric value of a run of decimal digits. -/
def digitsVal (ds : List Char) : ℕ :=
  ds.foldl (fun acc c => 10 * acc + (c.toNat - 48)) 0

/-- The regex fragment (\d+\.?\d*) with float() applied: one or more digits,
an optional dot, zero or more fractional digits.  Returns the value and the
remaining input, or none when no digit leads.  The regex is deterministic
here (no backtracking changes acceptance), so greedy scanning is faithful. -/
def parseDecimal (cs : List Char) : Option (ℚ × List Char) :=
  let ds := cs.takeWhile Char.isDigit
  let rest := cs.dropWhile Char.isDigit
  if ds.isEmpty then none
  else
    match rest with
    | '.' :: rest2 =>
        let fs := rest2.takeWhile Char.isDigit
        let rest3 := rest2.dropWhile Char.isDigit
        some ((digitsVal ds : ℚ) + (digitsVal fs : ℚ) / 10 ^ fs.length, rest3)
    | _ => some ((digitsVal ds : ℚ), rest)

/-- analysis_utils._process_psd_results lines 151-160: re.match of the pattern
(\d+\.?\d*)-(\d+\.?\d*)s against a time-slice label (anchored at the start,
trailing text allowed) with float() on both groups. -/
def parseSliceLabel (s : String) : Option (ℚ × ℚ) :=
  match parseDecimal s.data with
  | none => none
  | some (a, rest) =>
    match rest with
    | '-' :: rest2 =>
      match parseDecimal rest2 with
      | none => none
      | some (b, rest3) =>
        match rest3 with
        | 's' :: _ => some (a, b)
        | _ => none
    | _ => none

/-- The averaging weight of a time slice: the duration end - start when the
label parses, else the default weight 1. -/
def weightOf (label : String) : ℚ :=
  match parseSliceLabel label with
  | some (a, b) => b - a
  | none => 1

/-- The per-time-slice PSD results stored by run_psd_analysis:
band_power.means, band_power.errors and full_psd.power (the frequency axis is
bookkeeping only and is not modelled). -/
structure PsdSlice where
  band_means : List ℚ
  band_errors : List ℚ
  psd_power : List ℚ
deriving Inhabited

/-- The channel-level mean_across_time summary written by
_process_psd_results. -/
structure PsdTimeAgg where
  band_means : List ℚ
  band_errors : List ℝ
  psd_mean : List ℚ
  psd_sem : List ℝ
deriving Inhabited

/-- The file-level mean_across_channels summary (the grand_mean has the same
shape). -/
structure PsdChanAgg where
  band_means : List ℚ
  band_errors : List ℝ
  psd_mean : List ℚ
  psd_sem : List ℝ
deriving Inhabited

/-- analysis_utils._process_psd_results lines 143-190, one channel: durations
parsed from the slice labels, duration-weighted means across time slices,
quadrature-sum SEM over the slice band-power errors, sample SEM across slices
for the full PSD (zeros when a single slice); none when no data slice is
present.  Returns the summary and the channel weight (the summed durations). -/
noncomputable def psdTimeLevel (time_slices : List (String × PsdSlice)) :
    Option (PsdTimeAgg × ℚ) :=
  let dataSlices := time_slices.filter (fun ts => !(AGGREGATION_KEYS.contains ts.1))
  let durations := dataSlices.map (fun ts => weightOf ts.1)
  let band_means_list := dataSlices.map (fun ts => ts.2.band_means)
  let band_errors_list := dataSlices.map (fun ts => ts.2.band_errors)
  let full_psd_powers := dataSlices.map (fun ts => ts.2.psd_power)
  if band_means_list.isEmpty then none
  else
    let mean_band := weightedAvg band_means_list durations
    let mean_psd := weightedAvg full_psd_powers durations
    some ({ band_means := mean_band
            band_errors :=
              if 0 < band_errors_list.length then
                (colsQ (band_errors_list.map (fun r => r.map (fun e => e ^ 2)))).map
                  (fun c => Real.sqrt ((c.sum : ℝ)) / (band_errors_list.length : ℝ))
              else zerosR mean_band.length
            psd_mean := mean_psd
            psd_sem :=
              if 1 < full_psd_powers.length then semCols full_psd_powers
              else zerosR mean_psd.length },
          durations.sum)

/-- analysis_utils._process_psd_results lines 192-218: weight-averaged mean
across channels and sample SEM of the channel means (zeros when only one
channel).  Returns the summary and the file weight. -/
noncomputable def psdChannelLevel (chanAggs : List (PsdTimeAgg × ℚ)) :
    Option (PsdChanAgg × ℚ) :=
  if chanAggs.isEmpty then none
  else
    let channel_means_band := chanAggs.map (fun d => d.1.band_means)
    let channel_means_psd := chanAggs.map (fun d => d.1.psd_mean)
    let channel_weights := chanAggs.map (fun d => d.2)
    let mean_band := weightedAvg channel_means_band channel_weights
    let mean_psd := weightedAvg channel_means_psd channel_weights
    some ({ band_means := mean_band
            band_errors :=
              if 1 < channel_means_band.length then semCols channel_means_band
              else zerosR mean_band.length
            psd_mean := mean_psd
            psd_sem :=
              if 1 < channel_means_band.length then semCols channel_means_psd
              else zerosR mean_psd.length },
          channel_weights.sum)

/-- analysis_utils._process_psd_results lines 220-248: the grand mean across
files; with a single file the grand mean and grand SEM are that file's
across-channel mean and SEM, otherwise a weighted grand mean with sample SEM
across the file means. -/
noncomputable def psdGrandLevel (fileAggs : List (PsdChanAgg × ℚ)) :
    Option PsdChanAgg :=
  match fileAggs with
  | [] => none
  | [d] => some d.1
  | _ =>
    let file_means_band := fileAggs.map (fun d => d.1.band_means)
    let file_means_psd := fileAggs.map (fun d => d.1.psd_mean)
    let file_weights := fileAggs.map (fun d => d.2)
    some { band_means := weightedAvg file_means_band file_weights
           band_errors := semCols file_means_band
           psd_mean := weightedAvg file_means_psd file_weights
           psd_sem := semCols file_means_psd }

/-- A channel of the PSD result tree after processing: the original time-slice
entries plus the optional injected mean_across_time summary (absence of the
reserved key is modelled as none). -/
structure PsdChannelOut where
  time_slices : List (String × PsdSlice)
  mean_across_time : Option PsdTimeAgg
deriving Inhabited

/-- A file of the PSD result tree after processing. -/
structure PsdFileOut where
  channels : List (String × PsdChannelOut)
  mean_across_channels : Option PsdChanAgg
deriving Inhabited

/-- The PSD result tree after processing. -/
structure PsdOut where
  files : List (String × PsdFileOut)
  grand_mean : Option PsdChanAgg
deriving Inhabited

/-- One file pass of _process_psd_results: summaries per channel, the
file-level summary, and the collected (summary, weight) for the grand level. -/
noncomputable def psdFileLevel (channels : List (String × List (String × PsdSlice))) :
    PsdFileOut × Option (PsdChanAgg × ℚ) :=
  let chanOuts := channels.map (fun c =>
    (c.1, PsdChannelOut.mk c.2
      (if AGGREGATION_KEYS.contains c.1 then none
       else (psdTimeLevel c.2).map (fun d => d.1))))
  let chanAggs := (channels.filter (fun c => !(AGGREGATION_KEYS.contains c.1))).filterMap
    (fun c => psdTimeLevel c.2)
  let agg := psdChannelLevel chanAggs
  ({ channels := chanOuts, mean_across_channels := agg.map (fun d => d.1) }, agg)

/-- analysis_utils._process_psd_results, whole pass over the nested
file -> channel -> time-slice tree. -/
noncomputable def process_psd_results
    (psd_data : List (String × List (String × List (String × PsdSlice)))) : PsdOut :=
  let fileOuts := psd_data.map (fun f =>
    (f.1, if AGGREGATION_KEYS.contains f.1
          then { channels := f.2.map (fun c => (c.1, PsdChannelOut.mk c.2 none)),
                 mean_across_channels := none }
          else (psdFileLevel f.2).1))
  let fileAggs := (psd_data.filter (fun f => !(AGGREGATION_KEYS.contains f.1))).filterMap
    (fun f => (psdFileLevel f.2).2)
  { files := fileOuts, grand_mean := psdGrandLevel fileAggs }

/-- The endswith("_sliding") test of _process_pac_results, on the character
list of the key. -/
def isSlidingKey (s : String) : Bool := List.isSuffixOf "_sliding".data s.data

/-- A PAC scalar-metric dict, {MI, MVL, PLV}, as stored per time slice. -/
abbrev MetricDict := List (String × ℚ)

/-- A PAC mean/SEM summary: 'means' and 'sems' keyed by metric name. -/
structure PacAgg where
  means : List (String × ℚ)
  sems : List (String × ℝ)
deriving Inhabited

/-- analysis_utils._process_pac_results lines 54-78, one band of one channel:
gather the scalar results over the time slices whose key is not reserved and
does not end in "_sliding"; keyed means over them; keyed SEM when more than
one slice, else 0.0 per key; none when nothing was gathered. -/
noncomputable def pacTimeLevel (time_slices : List (String × MetricDict)) :
    Option PacAgg :=
  let metrics_across_time := (time_slices.filter
    (fun ts => !(AGGREGATION_KEYS.contains ts.1) && !(isSlidingKey ts.1))).map
      (fun ts => ts.2)
  if metrics_across_time.isEmpty then none
  else
    let keys := (metrics_across_time.headD []).map (fun kv => kv.1)
    some { means := keys.map (fun k =>
              (k, meanQ (metrics_across_time.map (fun d => (d.lookup k).getD 0))))
           sems :=
             if 1 < metrics_across_time.length then
               keys.map (fun k =>
                 (k, semQ (metrics_across_time.map (fun d => (d.lookup k).getD 0))))
             else keys.map (fun k => (k, (0:ℝ))) }

/-- First-occurrence-ordered distinct keys, the iteration order of a Python
dict built by repeated setdefault. -/
def keysFirst : List String → List String
  | [] => []
  | k :: rest => k :: keysFirst (rest.filter (fun x => x ≠ k))
termination_by l => l.length
decreasing_by
  simp only [List.length_cons]
  exact Nat.lt_succ_of_le (List.length_filter_le _ _)

/-- analysis_utils._process_pac_results lines 81-101: combine the collected
per-channel summaries of one band into the file-level summary for that band
(keyed mean of means; keyed SEM when more than one channel, else 0.0). -/
noncomputable def pacCombine (items : List PacAgg) : PacAgg :=
  let means_to_avg := items.map (fun it => it.means)
  let keys := (means_to_avg.headD []).map (fun kv => kv.1)
  { means := keys.map (fun k =>
      (k, meanQ (means_to_avg.map (fun d => (d.lookup k).getD 0))))
    sems :=
      if 1 < means_to_avg.length then
        keys.map (fun k => (k, semQ (means_to_avg.map (fun d => (d.lookup k).getD 0))))
      else keys.map (fun k => (k, (0:ℝ))) }

/-- analysis_utils._process_pac_results lines 104-122: combine the collected
per-file summaries of one band into the grand summary; when there is only one
file the grand SEM is that file's across-channel SEM, not 0. -/
noncomputable def pacCombineGrand (items : List PacAgg) : PacAgg :=
  let means_to_avg := items.map (fun it => it.means)
  let keys := (means_to_avg.headD []).map (fun kv => kv.1)
  { means := keys.map (fun k =>
      (k, meanQ (means_to_avg.map (fun d => (d.lookup k).getD 0))))
    sems :=
      if 1 < means_to_avg.length then
        keys.map (fun k => (k, semQ (means_to_avg.map (fun d => (d.lookup k).getD 0))))
      else (items.headD default).sems }

/-- Group a band-keyed collection in dict insertion order and combine each
group with the given combiner. -/
noncomputable def pacGroupBy (combine : List PacAgg → PacAgg)
    (pairs : List (String × PacAgg)) : List (String × PacAgg) :=
  (keysFirst (pairs.map (fun p => p.1))).map (fun b =>
    (b, combine ((pairs.filter (fun p => p.1 == b)).map (fun p => p.2))))

/-- One band of the PAC result tree after processing. -/
structure PacBandOut where
  time_slices : List (String × MetricDict)
  mean_across_time : Option PacAgg
deriving Inhabited

/-- One file of the PAC result tree after processing; mean_across_channels is
the injected band-keyed dict, the empty list modelling the absent key. -/
structure PacFileOut where
  channels : List (String × List (String × PacBandOut))
  mean_across_channels : List (String × PacAgg)
deriving Inhabited

/-- The PAC result tree after processing; grand_mean again a band-keyed dict
with the empty list modelling the absent key. -/
structure PacOut where
  files : List (String × PacFileOut)
  grand_mean : List (String × PacAgg)
deriving Inhabited

/-- One file pass of _process_pac_results: per-band time summaries and the
band-keyed across-channel summary, collecting in channel-then-band order. -/
noncomputable def pacFileLevel
    (channels : List (String × List (String × List (String × MetricDict)))) :
    PacFileOut :=
  let chanOuts := channels.map (fun c =>
    (c.1, c.2.map (fun b =>
      (b.1, PacBandOut.mk b.2
        (if AGGREGATION_KEYS.contains c.1 || AGGREGATION_KEYS.contains b.1 then none
         else pacTimeLevel b.2)))))
  let collected := (channels.filter (fun c => !(AGGREGATION_KEYS.contains c.1))).flatMap
    (fun c => (c.2.filter (fun b => !(AGGREGATION_KEYS.contains b.1))).filterMap
      (fun b => (pacTimeLevel b.2).map (fun a => (b.1, a))))
  { channels := chanOuts, mean_across_channels := pacGroupBy pacCombine collected }

/-- analysis_utils._process_pac_results, whole pass over the nested
file -> channel -> band -> time-slice tree. -/
noncomputable def process_pac_results
    (pac_data : List (String × List (String × List (String × List (String × MetricDict))))) :
    PacOut :=
  let fileOuts := pac_data.map (fun f =>
    (f.1, if AGGREGATION_KEYS.contains f.1
          then { channels := f.2.map (fun c =>
                   (c.1, c.2.map (fun b => (b.1, PacBandOut.mk b.2 none)))),
                 mean_across_channels := [] }
          else pacFileLevel f.2))
  let collected := (pac_data.filter (fun f => !(AGGREGATION_KEYS.contains f.1))).flatMap
    (fun f => (pacFileLevel f.2).mean_across_channels)
  { files := fileOuts, grand_mean := pacGroupBy pacCombineGrand collected }

/-- Drop the "_sliding" entries from a PAC time-slice dict. -/
def stripSlidingSlices (time_slices : List (String × MetricDict)) :
    List (String × MetricDict) :=
  time_slices.filter (fun ts => !(isSlidingKey ts.1))

/-- Drop the "_sliding" entries everywhere in a raw PAC result tree. -/
def stripSlidingPac
    (pac_data : List (String × List (String × List (String × List (String × MetricDict))))) :
    List (String × List (String × List (String × List (String × MetricDict)))) :=
  pac_data.map (fun f => (f.1, f.2.map (fun c =>
    (c.1, c.2.map (fun b => (b.1, stripSlidingSlices b.2))))))

/-- Drop the "_sliding" entries everywhere in a processed PAC result tree,
leaving the injected summaries untouched. -/
def stripSlidingPacOut (o : PacOut) : PacOut :=
  { files := o.files.map (fun f =>
      (f.1, { channels := f.2.channels.map (fun c =>
                (c.1, c.2.map (fun b =>
                  (b.1, PacBandOut.mk (stripSlidingSlices b.2.time_slices)
                    b.2.mean_across_time))))
              mean_across_channels := f.2.mean_across_channels }))
    grand_mean := o.grand_mean }

/-- One coherence time slice: the band_coherence means when that key is
present. -/
structure CohSlice where
  band_coherence : Option (List ℚ)
deriving Inhabited

/-- A coherence mean/SEM summary ('means' and 'errors'). -/
structure CohAgg where
  means : List ℚ
  errors : List ℝ
deriving Inhabited

/-- analysis_utils._process_coh_results lines 261-275, one pair: mean across
the time slices holding band_coherence data, sample SEM when more than one,
zeros when exactly one; none when none. -/
noncomputable def cohTimeLevel (time_slices : List (String × CohSlice)) :
    Option CohAgg :=
  let means_list := (time_slices.filter
    (fun ts => !(AGGREGATION_KEYS.contains ts.1))).filterMap (fun ts => ts.2.band_coherence)
  if means_list.isEmpty then none
  else
    some { means := meanCols means_list
           errors :=
             if 1 < means_list.length then semCols means_list
             else zerosR (meanCols means_list).length }

/-- analysis_utils._process_coh_results lines 277-296: the mean over a list of
subordinate coherence means (used for mean_across_pairs and for grand_mean),
with sample SEM when more than one and zeros when exactly one. -/
noncomputable def cohGroupLevel (memberMeans : List (List ℚ)) : Option CohAgg :=
  if memberMeans.isEmpty then none
  else
    some { means := meanCols memberMeans
           errors :=
             if 1 < memberMeans.length then semCols memberMeans
             else zerosR (meanCols memberMeans).length }

/-- One pair of the coherence result tree after processing. -/
structure CohPairOut where
  time_slices : List (String × CohSlice)
  mean_across_time : Option CohAgg
deriving Inhabited

/-- One file of the coherence result tree after processing. -/
structure CohFileOut where
  pairs : List (String × CohPairOut)
  mean_across_pairs : Option CohAgg
deriving Inhabited

/-- The coherence result tree after processing. -/
structure CohOut where
  files : List (String × CohFileOut)
  grand_mean : Option CohAgg
deriving Inhabited

/-- One file pass of _process_coh_results. -/
noncomputable def cohFileLevel (pairs : List (String × List (String × CohSlice))) :
    CohFileOut :=
  let pairOuts := pairs.map (fun p =>
    (p.1, CohPairOut.mk p.2
      (if AGGREGATION_KEYS.contains p.1 then none else cohTimeLevel p.2)))
  let collected := (pairs.filter (fun p => !(AGGREGATION_KEYS.contains p.1))).filterMap
    (fun p => (cohTimeLevel p.2).map (fun a => a.means))
  { pairs := pairOuts, mean_across_pairs := cohGroupLevel collected }

/-- analysis_utils._process_coh_results, whole pass over the nested
file -> pair -> time-slice tree. -/
noncomputable def process_coh_results
    (coh_data : List (String × List (String × List (String × CohSlice)))) : CohOut :=
  let fileOuts := coh_data.map (fun f =>
    (f.1, if AGGREGATION_KEYS.contains f.1
          then { pairs := f.2.map (fun p => (p.1, CohPairOut.mk p.2 none)),
                 mean_across_pairs := none }
          else cohFileLevel f.2))
  let collected := (coh_data.filter (fun f => !(AGGREGATION_KEYS.contains f.1))).filterMap
    (fun f => ((cohFileLevel f.2).mean_across_pairs).map (fun a => a.means))
  { files := fileOuts, grand_mean := cohGroupLevel collected }

/-- A comodulogram matrix. -/
abbrev Mat := List (List ℚ)

/-- np.mean over a list of matrices along axis 0, shaped by the first. -/
def matMean (ms : List Mat) : Mat :=
  (List.range (ms.headD []).length).map (fun r =>
    (List.range ((ms.headD []).getD r []).length).map (fun c =>
      meanQ (ms.map (fun M => (M.getD r []).getD c 0))))

/-- scipy sem over a list of matrices along axis 0. -/
noncomputable def matSem (ms : List Mat) : List (List ℝ) :=
  (List.range (ms.headD []).length).map (fun r =>
    (List.range ((ms.headD []).getD r []).length).map (fun c =>
      semQ (ms.map (fun M => (M.getD r []).getD c 0))))

/-- np.zeros_like of a matrix. -/
def matZeros (M : Mat) : List (List ℝ) :=
  M.map (fun row => row.map (fun _ => (0:ℝ)))

/-- A comodulogram mean/SEM summary. -/
structure ComodAgg where
  mean : Mat
  sem : List (List ℝ)
deriving Inhabited

/-- analysis_utils._process_comod_results lines 329-352, one channel: matrix
mean across the data time slices, elementwise sample SEM when more than one
slice, a zero matrix when exactly one; none when none. -/
noncomputable def comodTimeLevel (time_slices : List (String × Mat)) :
    Option ComodAgg :=
  let matrices := (time_slices.filter
    (fun ts => !(AGGREGATION_KEYS.contains ts.1))).map (fun ts => ts.2)
  if matrices.isEmpty then none
  else
    some { mean := matMean matrices
           sem := if 1 < matrices.length then matSem matrices
                  else matZeros (matMean matrices) }

/-- analysis_utils._process_comod_results lines 354-380: the matrix mean over
a list of subordinate means (mean_across_channels and grand_mean). -/
noncomputable def comodGroupLevel (memberMeans : List Mat) : Option ComodAgg :=
  if memberMeans.isEmpty then none
  else
    some { mean := matMean memberMeans
           sem := if 1 < memberMeans.length then matSem memberMeans
                  else matZeros (matMean memberMeans) }

/-- One channel of the comodulogram result tree after processing. -/
structure ComodChannelOut where
  time_slices : List (String × Mat)
  mean_across_time : Option ComodAgg
deriving Inhabited

/-- One file of the comodulogram result tree after processing. -/
structure ComodFileOut where
  channels : List (String × ComodChannelOut)
  mean_across_channels : Option ComodAgg
deriving Inhabited

/-- The comodulogram result tree after processing. -/
structure ComodOut where
  files : List (String × ComodFileOut)
  grand_mean : Option ComodAgg
deriving Inhabited

/-- The k-th edge of np.linspace(-pi, pi, n_bins + 1) in PAC.py
calculate_pac_metrics line 101. -/
noncomputable def binEdge (n_bins k : ℕ) : ℝ :=
  -Real.pi + 2 * Real.pi * k / n_bins

/-- The bin-edge list np.linspace(-pi, pi, n_bins + 1). -/
noncomputable def binEdges (n_bins : ℕ) : List ℝ :=
  (List.range (n_bins + 1)).map (fun k => binEdge n_bins k)

/-- np.digitize(x, bins) for increasing bins (right=False): the number of
edges that are <= x. -/
noncomputable def digitize (x : ℝ) (bins : List ℝ) : ℕ :=
  bins.countP (fun e => decide (e ≤ x))

/-- PAC.py lines 103-105: mean amplitude over the samples whose digitized
phase falls in bin i (i = 1..n_bins); an empty bin's mean is NaN and
np.nan_to_num(..., nan=1e-15) turns it into 1e-15. -/
noncomputable def mean_amp_by_bin (phase_series amplitude_series : List ℝ)
    (n_bins : ℕ) : List ℝ :=
  (List.range n_bins).map (fun i =>
    let vals := ((phase_series.zip amplitude_series).filter
      (fun pa => digitize pa.1 (binEdges n_bins) == i + 1)).map (fun pa => pa.2)
    if vals.length = 0 then 1e-15 else vals.sum / vals.length)

/-- PAC.py line 106: normalize the bin amplitudes to a distribution. -/
noncomputable def p_norm (phase_series amplitude_series : List ℝ) (n_bins : ℕ) :
    List ℝ :=
  let m := mean_amp_by_bin phase_series amplitude_series n_bins
  m.map (fun a => a / m.sum)

/-- PAC.py line 107: Shannon entropy with the 1e-15 epsilon inside the log. -/
noncomputable def entropyH (p : List ℝ) : ℝ :=
  -((p.map (fun q => q * Real.log (q + 1e-15))).sum)

/-- PAC.py line 108: the Modulation Index
(log(n_bins) - H(p_norm)) / log(n_bins). -/
noncomputable def modulation_index (phase_series amplitude_series : List ℝ)
    (n_bins : ℕ) : ℝ :=
  (Real.log n_bins - entropyH (p_norm phase_series amplitude_series n_bins))
    / Real.log n_bins

/-- Modelled from the spec: the amplitudes of the samples whose phase lies in
the j-th of n equal bins over [-pi, pi], by interval membership. -/
noncomputable def specBinVals (phase_series amplitude_series : List ℝ)
    (n j : ℕ) : List ℝ :=
  ((phase_series.zip amplitude_series).filter (fun pa =>
    decide (binEdge n j ≤ pa.1) && decide (pa.1 < binEdge n (j + 1)))).map
      (fun pa => pa.2)

/-- Modelled from the spec: mean amplitude per bin with empty bins assigned
amplitude 0 before normalization, as the claim words it. -/
noncomputable def spec_mean_amp_zero (phase_series amplitude_series : List ℝ)
    (n : ℕ) : List ℝ :=
  (List.range n).map (fun j =>
    let v := specBinVals phase_series amplitude_series n j
    if v.length = 0 then 0 else v.sum / v.length)

/-- The spec's binning with the code's 1e-15 fill for empty bins. -/
noncomputable def spec_mean_amp_eps (phase_series amplitude_series : List ℝ)
    (n : ℕ) : List ℝ :=
  (List.range n).map (fun j =>
    let v := specBinVals phase_series amplitude_series n j
    if v.length = 0 then 1e-15 else v.sum / v.length)

/-- The spec's MI formula applied to a vector of bin amplitudes: normalize,
H(p) with epsilon 1e-15 inside the log, MI = (log n - H) / log n. -/
noncomputable def specMIof (m : List ℝ) (n : ℕ) : ℝ :=
  (Real.log n - entropyH (m.map (fun a => a / m.sum))) / Real.log n

/-- One file pass of _process_comod_results. -/
noncomputable def comodFileLevel (channels : List (String × List (String × Mat))) :
    ComodFileOut :=
  let chanOuts := channels.map (fun c =>
    (c.1, ComodChannelOut.mk c.2
      (if AGGREGATION_KEYS.contains c.1 then none else comodTimeLevel c.2)))
  let collected := (channels.filter (fun c => !(AGGREGATION_KEYS.contains c.1))).filterMap
    (fun c => (comodTimeLevel c.2).map (fun a => a.mean))
  { channels := chanOuts, mean_across_channels := comodGroupLevel collected }

/-- analysis_utils._process_comod_results, whole pass over the nested
file -> channel -> time-slice tree. -/
noncomputable def process_comod_results
    (comod_data : List (String × List (String × List (String × Mat)))) : ComodOut :=
  let fileOuts := comod_data.map (fun f =>
    (f.1, if AGGREGATION_KEYS.contains f.1
          then { channels := f.2.map (fun c => (c.1, ComodChannelOut.mk c.2 none)),
                 mean_across_channels := none }
          else comodFileLevel f.2))
  let collected := (comod_data.filter (fun f => !(AGGREGATION_KEYS.contains f.1))).filterMap
    (fun f => ((comodFileLevel f.2).mean_across_channels).map (fun a => a.mean))
  { files := fileOuts, grand_mean := comodGroupLevel collected }

/-- A Python value as the result tree holds it: floats (with NaN split into
its own constructor), None, ints, strings, dicts, lists and numpy arrays. -/
inductive PyVal where
  | float (x : ℚ)
  | nan
  | pynone
  | int (n : ℤ)
  | str (s : String)
  | dict (entries : List (String × PyVal))
  | list (elems : List PyVal)
  | array (elems : List PyVal)
deriving Inhabited

mutual

/-- analysis_utils._clean_nans: recurse through dicts and lists, turn a float
NaN into None, convert an ndarray via tolist() and recurse, leave everything
else unchanged. -/
def clean_nans : PyVal → PyVal
  | .dict entries => .dict (cleanEntries entries)
  | .list elems => .list (cleanList elems)
  | .nan => .pynone
  | .array elems => .list (cleanList elems)
  | v => v

/-- _clean_nans over the entries of a dict. -/
def cleanEntries : List (String × PyVal) → List (String × PyVal)
  | [] => []
  | (k, v) :: rest => (k, clean_nans v) :: cleanEntries rest

/-- _clean_nans over the elements of a list. -/
def cleanList : List PyVal → List PyVal
  | [] => []
  | v :: rest => clean_nans v :: cleanList rest

end

mutual

/-- Does a raw float NaN occur anywhere in the tree. -/
def hasNan : PyVal → Bool
  | .nan => true
  | .dict entries => entriesHasNan entries
  | .list elems => listHasNan elems
  | .array elems => listHasNan elems
  | _ => false

/-- hasNan over dict entries. -/
def entriesHasNan : List (String × PyVal) → Bool
  | [] => false
  | (_, v) :: rest => hasNan v || entriesHasNan rest

/-- hasNan over list elements. -/
def listHasNan : List PyVal → Bool
  | [] => false
  | v :: rest => hasNan v || listHasNan rest

end

mutual

/-- Does a numpy array occur anywhere in the tree. -/
def hasArray : PyVal → Bool
  | .array _ => true
  | .dict entries => entriesHasArray entries
  | .list elems => listHasArray elems
  | _ => false

/-- hasArray over dict entries. -/
def entriesHasArray : List (String × PyVal) → Bool
  | [] => false
  | (_, v) :: rest => hasArray v || entriesHasArray rest

/-- hasArray over list elements. -/
def listHasArray : List PyVal → Bool
  | [] => false
  | v :: rest => hasArray v || listHasArray rest

end

/-- In-place processing of one top-level family key when present
(`if 'pac_results' in all_results: _process...(all_results['pac_results'])`). -/
def updateKey (k : String) (f : PyVal → PyVal) : PyVal → PyVal
  | .dict entries =>
      .dict (entries.map (fun kv => if kv.1 = k then (kv.1, f kv.2) else kv))
  | v => v

/-- analysis_utils.calculate_hierarchical_means with the four family
processors abstracted: process each family sub-tree in place when its key is
present, then run the final recursive _clean_nans pass over the whole tree. -/
def calculate_hierarchical_means (procPac procPsd procCoh procComod : PyVal → PyVal)
    (all_results : PyVal) : PyVal :=
  clean_nans (updateKey "comod_results" procComod
    (updateKey "coh_results" procCoh
      (updateKey "psd_results" procPsd
        (updateKey "pac_results" procPac all_results))))

end SpecApp

namespace SpecApp

/-! Lemmas and claim theorems for the definitions above. -/

theorem list_map_getD_range (l : List ℚ) (g : ℚ → β) :
    (List.range l.length).map (fun j => g (l.getD j 0)) = l.map g := by
  apply List.ext_getElem
  · simp
  · intro i h1 h2
    have hi : i < l.length := by simpa using h2
    simp only [List.getElem_map, List.getElem_range]
    rw [List.getD_eq_getElem l 0 hi]

theorem map_getD_filter_range (P : ℚ → Bool) :
    ∀ (psd freqs : List ℚ), psd.length = freqs.length →
      ((List.range freqs.length).filter (fun i => P (freqs.getD i 0))).map
          (fun i => psd.getD i 0)
        = ((psd.zip freqs).filter (fun pf => P pf.2)).map (fun pf => pf.1)
  | [], [], _ => by simp
  | [], _ :: _, h => by simp at h
  | _ :: _, [], h => by simp at h
  | p :: ps, f :: fs, h => by
    have hlen : ps.length = fs.length := by simpa using h
    have ih := map_getD_filter_range P ps fs hlen
    cases hPf : P f <;>
      simpa [List.range_succ_eq_map, List.filter_map, List.map_map, Function.comp_def,
        hPf] using ih

theorem semQ_eq_sqrt (v : List ℚ) (h2 : 1 < v.length) :
    semQ v = Real.sqrt ((v.map (fun x : ℚ =>
        ((x:ℝ) - (v.sum:ℝ) / (v.length:ℝ)) ^ 2)).sum
      / ((v.length:ℝ) * ((v.length:ℝ) - 1))) := by
  have hA : (0:ℝ) ≤ (v.map (fun x : ℚ =>
      ((x:ℝ) - (v.sum:ℝ) / (v.length:ℝ)) ^ 2)).sum := by
    apply List.sum_nonneg
    intro y hy
    obtain ⟨x, _, rfl⟩ := List.mem_map.mp hy
    positivity
  have hn1 : (0:ℝ) < (v.length:ℝ) - 1 := by
    have : (1:ℝ) < (v.length:ℝ) := by exact_mod_cast h2
    linarith
  have hval : ((varQ v : ℚ) : ℝ)
      = (v.map (fun x : ℚ => ((x:ℝ) - (v.sum:ℝ) / (v.length:ℝ)) ^ 2)).sum
        / ((v.length:ℝ) - 1) := by
    unfold varQ meanQ
    push_cast
    rw [List.map_map]
    congr 2
    apply List.map_congr_left
    intro x _
    simp only [Function.comp_apply]
    push_cast
    ring
  unfold semQ
  rw [hval]
  rw [← Real.sqrt_div (by positivity) ((v.length:ℝ))]
  rw [div_div]
  rw [mul_comm ((v.length:ℝ) - 1) ((v.length:ℝ))]

/-- C4: for every band, calculate_band_power returns the arithmetic mean of
the power values at frequency bins with low <= f <= high (inclusive at both
edges) and the sample standard error of those in-band values when more than
one bin falls in the band; a band with one or zero matching bins yields SEM
0.0, and a band with zero matching bins yields mean 0 and SEM 0 without
raising an error. -/
theorem c4_calculate_band_power (psd freqs : List ℚ) (bands : List (ℚ × ℚ))
    (h : psd.length = freqs.length) :
    (calculate_band_power psd freqs bands).1
        = bands.map (fun band =>
            let v := inBandVals psd freqs band
            if v = [] then 0 else v.sum / v.length)
    ∧ (calculate_band_power psd freqs bands).2
        = bands.map (fun band =>
            let v := inBandVals psd freqs band
            if v.length ≤ 1 then 0 else
              Real.sqrt ((v.map (fun x : ℚ =>
                  ((x:ℝ) - (v.sum:ℝ) / (v.length:ℝ)) ^ 2)).sum
                / ((v.length:ℝ) * ((v.length:ℝ) - 1)))) := by
  have key : ∀ band : ℚ × ℚ,
      ((List.range freqs.length).filter
          (fun i => decide (band.1 ≤ freqs.getD i 0) && decide (freqs.getD i 0 ≤ band.2))).map
        (fun i => psd.getD i 0) = inBandVals psd freqs band :=
    fun band =>
      map_getD_filter_range (fun z => decide (band.1 ≤ z) && decide (z ≤ band.2)) psd freqs h
  constructor
  · unfold calculate_band_power
    simp only
    apply List.map_congr_left
    intro band _
    rw [key band]
    rcases hv : inBandVals psd freqs band with _ | ⟨a, t⟩
    · simp
    · simp [meanQ]
  · unfold calculate_band_power
    simp only
    apply List.map_congr_left
    intro band _
    rw [key band]
    by_cases hlen : 1 < (inBandVals psd freqs band).length
    · rw [if_pos hlen, if_neg (by omega)]
      exact semQ_eq_sqrt _ hlen
    · rw [if_neg hlen, if_pos (by omega)]

theorem c4_calculate_band_power_witness :
    ([1, 3, 10] : List ℚ).length = ([0, 2, 4] : List ℚ).length ∧
    ((calculate_band_power [1, 3, 10] [0, 2, 4] [(0, 2), (5, 6)]).1
        = ([(0, 2), (5, 6)] : List (ℚ × ℚ)).map (fun band =>
            let v := inBandVals [1, 3, 10] [0, 2, 4] band
            if v = [] then 0 else v.sum / v.length)
      ∧ (calculate_band_power [1, 3, 10] [0, 2, 4] [(0, 2), (5, 6)]).2
        = ([(0, 2), (5, 6)] : List (ℚ × ℚ)).map (fun band =>
            let v := inBandVals [1, 3, 10] [0, 2, 4] band
            if v.length ≤ 1 then 0 else
              Real.sqrt ((v.map (fun x : ℚ =>
                  ((x:ℝ) - (v.sum:ℝ) / (v.length:ℝ)) ^ 2)).sum
                / ((v.length:ℝ) * ((v.length:ℝ) - 1))))) :=
  ⟨rfl, c4_calculate_band_power [1, 3, 10] [0, 2, 4] [(0, 2), (5, 6)] rfl⟩

/-- C6: generate_sliding_windows yields exactly (N - overlap) / step windows
when step = window_size - overlap_samples is positive and overlap_samples <= N,
and every yielded window is window_size consecutive samples lying entirely
inside the signal (no window reads past the end, none is padded). -/
theorem c6_sliding_window_count_and_bounds (data : List α)
    (window_size overlap_samples : ℕ)
    (hstep : overlap_samples < window_size) (hN : overlap_samples ≤ data.length) :
    (generate_sliding_windows data window_size overlap_samples).length
        = (data.length - overlap_samples) / (window_size - overlap_samples)
    ∧ ∀ w ∈ generate_sliding_windows data window_size overlap_samples,
        ∃ j, j + window_size ≤ data.length
          ∧ w = (data.drop j).take window_size ∧ w.length = window_size := by
  constructor
  · simp [generate_sliding_windows]
  · intro w hw
    simp only [generate_sliding_windows, List.mem_map, List.mem_range] at hw
    obtain ⟨i, hi, rfl⟩ := hw
    have h1 : i + 1 ≤ (data.length - overlap_samples) / (window_size - overlap_samples) :=
      hi
    have h2 : (i + 1) * (window_size - overlap_samples)
        ≤ ((data.length - overlap_samples) / (window_size - overlap_samples))
            * (window_size - overlap_samples) :=
      Nat.mul_le_mul_right _ h1
    have h3 : ((data.length - overlap_samples) / (window_size - overlap_samples))
            * (window_size - overlap_samples)
        ≤ data.length - overlap_samples := Nat.div_mul_le_self _ _
    rw [Nat.succ_mul] at h2
    refine ⟨i * (window_size - overlap_samples), by omega, rfl, ?_⟩
    simp only [List.length_take, List.length_drop]
    omega

theorem c6_sliding_window_count_and_bounds_witness :
    1 < 2 ∧ 1 ≤ 5 ∧
    ((generate_sliding_windows ([10, 11, 12, 13, 14] : List ℕ) 2 1).length
        = (5 - 1) / (2 - 1)
      ∧ ∀ w ∈ generate_sliding_windows ([10, 11, 12, 13, 14] : List ℕ) 2 1,
          ∃ j, j + 2 ≤ 5 ∧ w = (([10, 11, 12, 13, 14] : List ℕ).drop j).take 2
            ∧ w.length = 2) :=
  ⟨by decide, by decide, by
    have h := c6_sliding_window_count_and_bounds
      ([10, 11, 12, 13, 14] : List ℕ) 2 1 (by decide) (by decide)
    simpa using h⟩

/-- C7: psd_welch falls back exactly when the signal is shorter than the
window; the fallback call uses a 1024-sample Hann window, 512-sample overlap
and nfft 1024, and otherwise the caller-provided parameters are passed
unchanged. -/
theorem c7_welch_fallback (welch : List ℝ → ℚ → List ℝ → ℕ → ℕ → List ℝ × List ℝ)
    (data : List ℝ) (fs : ℚ) (window : List ℝ) (noverlap nfft : ℕ) :
    (data.length < window.length →
      psd_welch welch data fs window noverlap nfft
        = ((welch data fs (hann 1024) 512 1024).2, (welch data fs (hann 1024) 512 1024).1))
    ∧ (window.length ≤ data.length →
      psd_welch welch data fs window noverlap nfft
        = ((welch data fs window noverlap nfft).2, (welch data fs window noverlap nfft).1)) := by
  constructor
  · intro h
    simp [psd_welch, h]
  · intro h
    simp [psd_welch, Nat.not_lt.mpr h]

theorem weightedAvg_pair (m1 m2 : List ℚ) (d1 d2 : ℚ) (h : m1.length = m2.length) :
    weightedAvg [m1, m2] [d1, d2]
      = List.zipWith (fun x y => (d1 * x + d2 * y) / (d1 + d2)) m1 m2 := by
  unfold weightedAvg colsQ
  apply List.ext_getElem
  · simp [h]
  · intro i hL hR
    have hi1 : i < m1.length := by simpa using hL
    have hi2 : i < m2.length := h ▸ hi1
    simp only [List.getElem_map, List.getElem_range, List.getElem_zipWith,
      List.headD, List.map_cons, List.map_nil, List.zip, List.zipWith, List.sum_cons,
      List.sum_nil]
    rw [List.getD_eq_getElem m1 0 hi1, List.getD_eq_getElem m2 0 hi2]
    ring_nf

theorem parse_some_not_reserved (l : String) (a b : ℚ)
    (h : parseSliceLabel l = some (a, b)) :
    AGGREGATION_KEYS.contains l = false := by
  by_contra hc
  have hmem : l ∈ AGGREGATION_KEYS := by
    have hb := Bool.of_not_eq_false hc
    simpa using hb
  have hnone : parseSliceLabel l = none := by
    simp only [AGGREGATION_KEYS, List.mem_cons, List.not_mem_nil, or_false] at hmem
    rcases hmem with rfl | rfl | rfl | rfl | rfl <;> decide
  rw [hnone] at h
  exact Option.noConfusion h

/-- C3: PSD aggregation across time slices is a duration-weighted mean; each
slice's weight is end - start parsed from its "{start}-{end}s" label, so two
slices of durations d1 and d2 with band means m1, m2 aggregate to
(d1*m1 + d2*m2)/(d1 + d2), and a slice whose label does not parse gets
weight 1. -/
theorem c3_psd_weighted_mean (l1 l2 : String) (s1 s2 : PsdSlice) (a1 b1 : ℚ)
    (h1 : parseSliceLabel l1 = some (a1, b1))
    (hL : s1.band_means.length = s2.band_means.length) :
    (∀ a2 b2 : ℚ, parseSliceLabel l2 = some (a2, b2) →
      (psdTimeLevel [(l1, s1), (l2, s2)]).map (fun d => d.1.band_means)
        = some (List.zipWith (fun m1 m2 =>
            ((b1 - a1) * m1 + (b2 - a2) * m2) / ((b1 - a1) + (b2 - a2)))
            s1.band_means s2.band_means))
    ∧ (parseSliceLabel l2 = none → AGGREGATION_KEYS.contains l2 = false →
      (psdTimeLevel [(l1, s1), (l2, s2)]).map (fun d => d.1.band_means)
        = some (List.zipWith (fun m1 m2 =>
            ((b1 - a1) * m1 + 1 * m2) / ((b1 - a1) + 1))
            s1.band_means s2.band_means)) := by
  have hres1 : AGGREGATION_KEYS.contains l1 = false := parse_some_not_reserved l1 a1 b1 h1
  constructor
  · intro a2 b2 h2
    have hres2 : AGGREGATION_KEYS.contains l2 = false := parse_some_not_reserved l2 a2 b2 h2
    unfold psdTimeLevel
    simp only [List.filter_cons, List.filter_nil, hres1, hres2, Bool.not_false,
      if_pos, List.map_cons, List.map_nil, List.isEmpty_cons, weightOf, h1, h2]
    rw [weightedAvg_pair s1.band_means s2.band_means (b1 - a1) (b2 - a2) hL]
    simp
  · intro h2 hres2
    unfold psdTimeLevel
    simp only [List.filter_cons, List.filter_nil, hres1, hres2, Bool.not_false,
      if_pos, List.map_cons, List.map_nil, List.isEmpty_cons, weightOf, h1, h2]
    rw [weightedAvg_pair s1.band_means s2.band_means (b1 - a1) 1 hL]
    simp

theorem c3_psd_weighted_mean_witness :
    parseSliceLabel "10-40s" = some ((10:ℚ), (40:ℚ))
    ∧ (psdTimeLevel [("0-10s", PsdSlice.mk [2] [0] [0]),
          ("10-40s", PsdSlice.mk [6] [0] [0])]).map (fun d => d.1.band_means)
        = some (List.zipWith (fun m1 m2 =>
            (((10:ℚ) - 0) * m1 + ((40:ℚ) - 10) * m2) / (((10:ℚ) - 0) + ((40:ℚ) - 10)))
            [2] [6]) :=
  ⟨by decide,
    (c3_psd_weighted_mean "0-10s" "10-40s" (PsdSlice.mk [2] [0] [0])
      (PsdSlice.mk [6] [0] [0]) 0 10 (by decide) rfl).1 10 40 (by decide)⟩

theorem c7_welch_fallback_witness :
    ((([] : List ℝ).length < ([0] : List ℝ).length →
      psd_welch welchStub [] 1 [0] 7 9
        = ((welchStub [] 1 (hann 1024) 512 1024).2,
           (welchStub [] 1 (hann 1024) 512 1024).1))
    ∧ (([0] : List ℝ).length ≤ ([] : List ℝ).length →
      psd_welch welchStub [] 1 [0] 7 9
        = ((welchStub [] 1 [0] 7 9).2, (welchStub [] 1 [0] 7 9).1))) :=
  c7_welch_fallback welchStub [] 1 [0] 7 9

theorem weightedAvg_length (rows : List (List ℚ)) (w : List ℚ) :
    (weightedAvg rows w).length = (rows.headD []).length := by
  simp [weightedAvg, colsQ]

/-- C1 counterexample: a single-slice group whose stored band-power error is 2
gets mean_across_time SEM 2 (the quadrature sum sqrt(2^2)/1), not 0. -/
theorem c1_singleton_sem_cex :
    ((process_psd_results
          [("f", [("ch", [("0-10s", PsdSlice.mk [1] [2] [3])])])]).files.map
        (fun f => f.2.channels.map (fun c => c.2.mean_across_time.map
          (fun a => a.band_errors))))
      = [[some [(2:ℝ)]]]
    ∧ (2:ℝ) ≠ 0 := by
  have hsq : Real.sqrt (4:ℝ) = 2 := by
    rw [show (4:ℝ) = (2:ℝ)^2 by norm_num]
    exact Real.sqrt_sq (by norm_num)
  have hmem : "0-10s" ∉ AGGREGATION_KEYS := by decide
  have hparse : parseSliceLabel "0-10s" = some ((0:ℚ), (10:ℚ)) := by decide
  have hw : weightOf "0-10s" = 10 := by
    unfold weightOf
    rw [hparse]
    norm_num
  have htime : psdTimeLevel [("0-10s", PsdSlice.mk [1] [2] [3])]
      = some ({ band_means := weightedAvg [[1]] [10]
                band_errors := [2]
                psd_mean := weightedAvg [[3]] [10]
                psd_sem := zerosR (weightedAvg [[3]] [10]).length }, 10) := by
    unfold psdTimeLevel
    norm_num [hmem, hw, hsq, colsQ, zerosR]
    norm_num [show List.range 1 = [0] from rfl, hsq]
  have hfmem : "f" ∉ AGGREGATION_KEYS := by decide
  have hcmem : "ch" ∉ AGGREGATION_KEYS := by decide
  constructor
  · simp only [process_psd_results, psdFileLevel]
    norm_num [hmem, hfmem, hcmem, htime]
  · norm_num

theorem psdTimeLevel_single (s : PsdSlice) :
    psdTimeLevel [("0-10s", s)]
      = some ({ band_means := weightedAvg [s.band_means] [10]
                band_errors := s.band_errors.map (fun e : ℚ => |(e:ℝ)|)
                psd_mean := weightedAvg [s.psd_power] [10]
                psd_sem := zerosR (weightedAvg [s.psd_power] [10]).length }, 10) := by
  have hmem : "0-10s" ∉ AGGREGATION_KEYS := by decide
  have hparse : parseSliceLabel "0-10s" = some ((0:ℚ), (10:ℚ)) := by decide
  have hw : weightOf "0-10s" = 10 := by
    unfold weightOf
    rw [hparse]
    norm_num
  unfold psdTimeLevel
  norm_num [hmem, hw, zerosR, colsQ]
  apply List.ext_getElem
  · simp
  · intro i h1 h2
    have hi : i < s.band_errors.length := by simpa using h1
    simp only [List.getElem_map, List.getElem_range, Function.comp_apply]
    rw [List.getElem?_eq_getElem hi]
    simp only [Option.map_some', Option.getD_some, List.map_cons, List.map_nil,
      List.sum_cons, List.sum_nil, add_zero]
    push_cast
    exact Real.sqrt_sq_eq_abs _

theorem meanCols_single_length (x : List ℚ) : (meanCols [x]).length = x.length := by
  simp [meanCols, colsQ]

theorem pacTimeLevel_single (m : MetricDict) :
    pacTimeLevel [("0-10s", m)]
      = some { means := (m.map (fun kv => kv.1)).map (fun k =>
                 (k, meanQ [(m.lookup k).getD 0]))
               sems := m.map (fun kv => (kv.1, (0:ℝ))) } := by
  have hmem : "0-10s" ∉ AGGREGATION_KEYS := by decide
  have hsl : isSlidingKey "0-10s" = false := by decide
  unfold pacTimeLevel
  norm_num [hmem, hsl, List.map_map, Function.comp_def]

/-- C1 amended: for singleton groups the engine records SEM 0 at the PAC time
and channel levels, the coherence and comodulogram levels, the PSD full-PSD
time level and the PSD channel level; but the PSD band-power time-level SEM of
a single slice is that slice's own error |e| (quadrature sum), not 0, and the
grand level of PAC and PSD inherits the single file's across-channel SEM
rather than setting 0 (which collapses to 0 only because the channel level
already produced 0 here). -/
theorem c1_singleton_sem_amended (m : MetricDict) (A : PacAgg) (s : PsdSlice)
    (B : PsdTimeAgg) (G : PsdChanAgg) (w : ℚ) (v : List ℚ) (x : List ℚ)
    (M : Mat) (X : Mat) :
    ((pacTimeLevel [("0-10s", m)]).map (fun a => a.sems)
        = some (m.map (fun kv => (kv.1, (0:ℝ))))
      ∧ (pacCombine [A]).sems = A.means.map (fun kv => (kv.1, (0:ℝ)))
      ∧ (pacCombineGrand [A]).sems = A.sems)
    ∧ ((psdTimeLevel [("0-10s", s)]).map (fun d => (d.1.band_errors, d.1.psd_sem))
        = some (s.band_errors.map (fun e : ℚ => |(e:ℝ)|),
                List.replicate (weightedAvg [s.psd_power] [10]).length (0:ℝ))
      ∧ (psdChannelLevel [(B, w)]).map (fun d => (d.1.band_errors, d.1.psd_sem))
        = some (List.replicate B.band_means.length (0:ℝ),
                List.replicate B.psd_mean.length (0:ℝ))
      ∧ psdGrandLevel [(G, w)] = some G)
    ∧ ((cohTimeLevel [("0-10s", CohSlice.mk (some v))]).map (fun a => a.errors)
        = some (List.replicate v.length (0:ℝ))
      ∧ (cohGroupLevel [x]).map (fun a => a.errors)
        = some (List.replicate x.length (0:ℝ)))
    ∧ ((comodTimeLevel [("0-10s", M)]).map (fun a => a.sem)
        = some (matZeros (matMean [M]))
      ∧ (comodGroupLevel [X]).map (fun a => a.sem)
        = some (matZeros (matMean [X]))) := by
  have hmem : "0-10s" ∉ AGGREGATION_KEYS := by decide
  refine ⟨⟨?_, ?_, ?_⟩, ⟨?_, ?_, ?_⟩, ⟨?_, ?_⟩, ⟨?_, ?_⟩⟩
  · rw [pacTimeLevel_single]
    rfl
  · unfold pacCombine
    norm_num [List.map_map, Function.comp_def]
  · unfold pacCombineGrand
    norm_num
  · rw [psdTimeLevel_single]
    simp [zerosR, weightedAvg_length]
  · unfold psdChannelLevel
    norm_num [zerosR, weightedAvg_length]
  · unfold psdGrandLevel
    rfl
  · unfold cohTimeLevel
    norm_num [hmem, zerosR, meanCols_single_length, List.filterMap_cons,
      List.filterMap_nil]
  · unfold cohGroupLevel
    norm_num [zerosR, meanCols_single_length]
  · unfold comodTimeLevel
    norm_num [hmem]
  · unfold comodGroupLevel
    norm_num

theorem pacTimeLevel_strip (ts : List (String × MetricDict)) :
    pacTimeLevel (stripSlidingSlices ts) = pacTimeLevel ts := by
  unfold pacTimeLevel stripSlidingSlices
  rw [List.filter_filter]
  have hpred : (fun (a : String × MetricDict) =>
      (!(AGGREGATION_KEYS.contains a.1) && !(isSlidingKey a.1)) && !(isSlidingKey a.1))
      = (fun a => !(AGGREGATION_KEYS.contains a.1) && !(isSlidingKey a.1)) := by
    funext a
    cases isSlidingKey a.1 <;> cases AGGREGATION_KEYS.contains a.1 <;> rfl
  rw [hpred]

/-- C10: removing the "_sliding" entries from the raw PAC tree changes nothing
but those entries themselves in the processed tree: every mean_across_time,
mean_across_channels and grand_mean summary is identical, so sliding-window
series never contribute to any hierarchical mean or SEM. -/
theorem c10_sliding_never_contributes
    (pac_data : List (String × List (String × List (String × List (String × MetricDict))))) :
    process_pac_results (stripSlidingPac pac_data)
      = stripSlidingPacOut (process_pac_results pac_data) := by
  have hfl : ∀ channels : List (String × List (String × List (String × MetricDict))),
      pacFileLevel (channels.map (fun c =>
        (c.1, c.2.map (fun b => (b.1, stripSlidingSlices b.2)))))
      = { channels := (pacFileLevel channels).channels.map (fun c =>
            (c.1, c.2.map (fun b =>
              (b.1, PacBandOut.mk (stripSlidingSlices b.2.time_slices)
                b.2.mean_across_time))))
          mean_across_channels := (pacFileLevel channels).mean_across_channels } := by
    intro channels
    unfold pacFileLevel
    simp only [List.map_map, List.filter_map, List.filterMap_map, List.flatMap_map,
      Function.comp_def, pacTimeLevel_strip, List.map_cons, List.map_nil]
  unfold process_pac_results stripSlidingPac stripSlidingPacOut
  simp only [List.map_map, List.filter_map, List.flatMap_map, Function.comp_def, hfl]
  congr 1
  apply List.map_congr_left
  intro f _
  by_cases hf : f.1 ∈ AGGREGATION_KEYS <;>
    simp [hf, List.map_map, Function.comp_def]

/-- C9: a group with no child data entries after the reserved-key (and, for
PAC time slices, "_sliding") exclusion produces no summary entry at its level
and raises nothing: pacTimeLevel and cohTimeLevel give none, an all-empty
channel set writes no mean_across_channels entry, an all-empty pair set writes
no mean_across_pairs key, and all-empty files produce no grand_mean. -/
theorem c9_empty_groups :
    (∀ ts : List (String × MetricDict),
      ts.filter (fun t => !(AGGREGATION_KEYS.contains t.1) && !(isSlidingKey t.1)) = [] →
      pacTimeLevel ts = none)
    ∧ (∀ channels : List (String × List (String × List (String × MetricDict))),
        (∀ c ∈ channels, ∀ b ∈ c.2, pacTimeLevel b.2 = none) →
        (pacFileLevel channels).mean_across_channels = [])
    ∧ (∀ pac_data :
          List (String × List (String × List (String × List (String × MetricDict)))),
        (∀ f ∈ pac_data, ∀ c ∈ f.2, ∀ b ∈ c.2, pacTimeLevel b.2 = none) →
        (process_pac_results pac_data).grand_mean = [])
    ∧ (∀ ts : List (String × CohSlice),
        (ts.filter (fun t => !(AGGREGATION_KEYS.contains t.1))).filterMap
            (fun t => t.2.band_coherence) = [] →
        cohTimeLevel ts = none)
    ∧ (∀ pairs : List (String × List (String × CohSlice)),
        (∀ p ∈ pairs, cohTimeLevel p.2 = none) →
        (cohFileLevel pairs).mean_across_pairs = none)
    ∧ (∀ coh_data : List (String × List (String × List (String × CohSlice))),
        (∀ f ∈ coh_data, ∀ p ∈ f.2, cohTimeLevel p.2 = none) →
        (process_coh_results coh_data).grand_mean = none) := by
  have hpactime : ∀ ts : List (String × MetricDict),
      ts.filter (fun t => !(AGGREGATION_KEYS.contains t.1) && !(isSlidingKey t.1)) = [] →
      pacTimeLevel ts = none := by
    intro ts h
    unfold pacTimeLevel
    rw [h]
    simp
  have hpacchan : ∀ channels : List (String × List (String × List (String × MetricDict))),
      (∀ c ∈ channels, ∀ b ∈ c.2, pacTimeLevel b.2 = none) →
      (pacFileLevel channels).mean_across_channels = [] := by
    intro channels h
    unfold pacFileLevel
    have hcol : (channels.filter (fun c => !(AGGREGATION_KEYS.contains c.1))).flatMap
        (fun c => (c.2.filter (fun b => !(AGGREGATION_KEYS.contains b.1))).filterMap
          (fun b => (pacTimeLevel b.2).map (fun a => (b.1, a)))) = [] := by
      apply List.flatMap_eq_nil_iff.mpr
      intro c hc
      apply List.filterMap_eq_nil_iff.mpr
      intro b hb
      rw [h c (List.mem_of_mem_filter hc) b (List.mem_of_mem_filter hb)]
      rfl
    rw [hcol]
    simp [pacGroupBy, keysFirst]
  have hcohtime : ∀ ts : List (String × CohSlice),
      (ts.filter (fun t => !(AGGREGATION_KEYS.contains t.1))).filterMap
          (fun t => t.2.band_coherence) = [] →
      cohTimeLevel ts = none := by
    intro ts h
    unfold cohTimeLevel
    rw [h]
    simp
  have hcohpair : ∀ pairs : List (String × List (String × CohSlice)),
      (∀ p ∈ pairs, cohTimeLevel p.2 = none) →
      (cohFileLevel pairs).mean_across_pairs = none := by
    intro pairs h
    unfold cohFileLevel
    have hcol : (pairs.filter (fun p => !(AGGREGATION_KEYS.contains p.1))).filterMap
        (fun p => (cohTimeLevel p.2).map (fun a => a.means)) = [] := by
      apply List.filterMap_eq_nil_iff.mpr
      intro p hp
      rw [h p (List.mem_of_mem_filter hp)]
      rfl
    rw [hcol]
    simp [cohGroupLevel]
  refine ⟨hpactime, hpacchan, ?_, hcohtime, hcohpair, ?_⟩
  · intro pac_data h
    unfold process_pac_results
    have hcol : (pac_data.filter (fun f => !(AGGREGATION_KEYS.contains f.1))).flatMap
        (fun f => (pacFileLevel f.2).mean_across_channels) = [] := by
      apply List.flatMap_eq_nil_iff.mpr
      intro f hf
      exact hpacchan f.2 (h f (List.mem_of_mem_filter hf))
    rw [hcol]
    simp [pacGroupBy, keysFirst]
  · intro coh_data h
    unfold process_coh_results
    have hcol : (coh_data.filter (fun f => !(AGGREGATION_KEYS.contains f.1))).filterMap
        (fun f => ((cohFileLevel f.2).mean_across_pairs).map (fun a => a.means)) = [] := by
      apply List.filterMap_eq_nil_iff.mpr
      intro f hf
      rw [hcohpair f.2 (h f (List.mem_of_mem_filter hf))]
      rfl
    rw [hcol]
    simp [cohGroupLevel]

theorem countP_le_range (j m : ℕ) (h : j < m) :
    (List.range m).countP (fun k => decide (k ≤ j)) = j + 1 := by
  induction m with
  | zero => omega
  | succ m ih =>
    rw [List.range_succ, List.countP_append]
    by_cases hj : j < m
    · rw [ih hj]
      have hm : (decide (m ≤ j)) = false := decide_eq_false (by omega)
      simp [List.countP_cons, hm]
    · have hjm : j = m := by omega
      subst hjm
      have hall : List.countP (fun k => decide (k ≤ j)) (List.range j)
          = (List.range j).length := by
        apply List.countP_eq_length.mpr
        intro a ha
        have : a < j := by simpa using ha
        simp [Nat.le_of_lt this]
      simp [List.countP_cons, hall]

theorem countP_threshold_ge (q : ℕ → Bool) (m j : ℕ) (hj : j < m)
    (hq : ∀ k, k ≤ j → q k = true) :
    j + 1 ≤ (List.range m).countP q := by
  calc j + 1 = (List.range m).countP (fun k => decide (k ≤ j)) :=
        (countP_le_range j m hj).symm
    _ ≤ (List.range m).countP q := by
        apply List.countP_mono_left
        intro a _ ha
        exact hq a (of_decide_eq_true ha)

theorem countP_threshold_le (q : ℕ → Bool) (m j : ℕ)
    (hq : ∀ k, j < k → q k = false) :
    (List.range m).countP q ≤ j + 1 := by
  have h1 : (List.range m).countP q ≤ (List.range m).countP (fun k => decide (k ≤ j)) := by
    apply List.countP_mono_left
    intro a _ ha
    by_contra hc
    have : j < a := by
      by_contra hc2
      exact hc (decide_eq_true (by omega))
    rw [hq a this] at ha
    exact Bool.noConfusion ha
  by_cases hj : j < m
  · rw [countP_le_range j m hj] at h1
    exact h1
  · calc (List.range m).countP q ≤ (List.range m).length := List.countP_le_length _
      _ ≤ j + 1 := by simp; omega

theorem binEdge_mono (n : ℕ) (hn : 0 < n) (k l : ℕ) (hkl : k ≤ l) :
    binEdge n k ≤ binEdge n l := by
  unfold binEdge
  have hden : (0:ℝ) < n := by exact_mod_cast hn
  have hkl2 : (k:ℝ) ≤ l := by exact_mod_cast hkl
  have h2 : 2 * Real.pi * (k:ℝ) ≤ 2 * Real.pi * (l:ℝ) := by
    nlinarith [Real.pi_pos]
  have h3 : 2 * Real.pi * (k:ℝ) / n ≤ 2 * Real.pi * (l:ℝ) / n := by gcongr
  linarith

theorem digitize_eq_iff (x : ℝ) (n j : ℕ) (hn : 0 < n) (hj : j < n) :
    digitize x (binEdges n) = j + 1 ↔ (binEdge n j ≤ x ∧ x < binEdge n (j + 1)) := by
  unfold digitize binEdges
  rw [List.countP_map]
  show (List.range (n + 1)).countP (fun k => decide (binEdge n k ≤ x)) = j + 1 ↔ _
  constructor
  · intro hcount
    constructor
    · by_contra hnot
      push_neg at hnot
      rcases Nat.eq_zero_or_pos j with rfl | hjpos
      · have hz : (List.range (n + 1)).countP (fun k => decide (binEdge n k ≤ x)) = 0 := by
          apply List.countP_eq_zero.mpr
          intro a _
          simp only [decide_eq_true_eq]
          intro hle
          have := binEdge_mono n hn 0 a (Nat.zero_le a)
          linarith
        omega
      · have hb : (List.range (n + 1)).countP (fun k => decide (binEdge n k ≤ x))
            ≤ (j - 1) + 1 := by
          apply countP_threshold_le
          intro k hk
          apply decide_eq_false
          intro hle
          have hjk : j ≤ k := by omega
          have := binEdge_mono n hn j k hjk
          linarith
        omega
    · by_contra hnot
      push_neg at hnot
      have hb : (j + 1) + 1 ≤ (List.range (n + 1)).countP
          (fun k => decide (binEdge n k ≤ x)) := by
        apply countP_threshold_ge _ _ _ (by omega)
        intro k hk
        apply decide_eq_true
        have := binEdge_mono n hn k (j + 1) hk
        linarith
      omega
  · rintro ⟨h1, h2⟩
    have hge : j + 1 ≤ (List.range (n + 1)).countP
        (fun k => decide (binEdge n k ≤ x)) := by
      apply countP_threshold_ge _ _ _ (by omega)
      intro k hk
      exact decide_eq_true (le_trans (binEdge_mono n hn k j hk) h1)
    have hle : (List.range (n + 1)).countP
        (fun k => decide (binEdge n k ≤ x)) ≤ j + 1 := by
      apply countP_threshold_le
      intro k hk
      apply decide_eq_false
      intro hc
      have := binEdge_mono n hn (j + 1) k (by omega)
      linarith
    omega

theorem mean_amp_eq_spec_eps (phase_series amplitude_series : List ℝ) (n : ℕ)
    (hn : 0 < n) :
    mean_amp_by_bin phase_series amplitude_series n
      = spec_mean_amp_eps phase_series amplitude_series n := by
  unfold mean_amp_by_bin spec_mean_amp_eps specBinVals
  apply List.map_congr_left
  intro j hj
  have hjn : j < n := by simpa using hj
  have hfilter : (phase_series.zip amplitude_series).filter
        (fun pa => digitize pa.1 (binEdges n) == j + 1)
      = (phase_series.zip amplitude_series).filter (fun pa =>
          decide (binEdge n j ≤ pa.1) && decide (pa.1 < binEdge n (j + 1))) := by
    apply List.filter_congr
    intro pa _
    by_cases hin : binEdge n j ≤ pa.1 ∧ pa.1 < binEdge n (j + 1)
    · have h1 := (digitize_eq_iff pa.1 n j hn hjn).mpr hin
      simp [h1, hin.1, hin.2]
    · have h1 : digitize pa.1 (binEdges n) ≠ j + 1 :=
        fun hc => hin ((digitize_eq_iff pa.1 n j hn hjn).mp hc)
      rcases Classical.em (binEdge n j ≤ pa.1) with hA | hA
      · have hB : ¬ pa.1 < binEdge n (j + 1) := fun hB => hin ⟨hA, hB⟩
        simp [h1, hA, hB]
      · simp [h1, hA]
  rw [hfilter]

/-- C2 amended: the Modulation Index computes exactly the spec's pipeline
(interval binning into n equal bins over [-pi, pi], mean amplitude per bin,
normalization, H with epsilon 1e-15 inside the log,
MI = (log n - H)/log n) except that empty bins are assigned amplitude 1e-15
(via np.nan_to_num with nan=1e-15), not 0. -/
theorem c2_mi_formula_amended (phase_series amplitude_series : List ℝ) (n_bins : ℕ)
    (hn : 0 < n_bins) :
    modulation_index phase_series amplitude_series n_bins
      = specMIof (spec_mean_amp_eps phase_series amplitude_series n_bins) n_bins := by
  unfold modulation_index p_norm specMIof
  rw [mean_amp_eq_spec_eps phase_series amplitude_series n_bins hn]

theorem c2_mi_formula_amended_witness :
    0 < 2 ∧ modulation_index [0] [(4:ℝ)] 2
      = specMIof (spec_mean_amp_eps [0] [(4:ℝ)] 2) 2 :=
  ⟨by norm_num, c2_mi_formula_amended [0] [(4:ℝ)] 2 (by norm_num)⟩

theorem binEdge_two_zero : binEdge 2 0 = -Real.pi := by
  unfold binEdge
  push_cast
  ring

theorem binEdge_two_one : binEdge 2 1 = 0 := by
  unfold binEdge
  push_cast
  ring

theorem binEdge_two_two : binEdge 2 2 = Real.pi := by
  unfold binEdge
  push_cast
  ring

theorem digitize_zero_two : digitize 0 (binEdges 2) = 2 := by
  have h := (digitize_eq_iff (0:ℝ) 2 1 (by norm_num) (by norm_num)).mpr
    ⟨by rw [binEdge_two_one], by rw [binEdge_two_two]; exact Real.pi_pos⟩
  simpa using h

theorem mean_amp_single_sample (a : ℝ) :
    mean_amp_by_bin [0] [a] 2 = [1e-15, a] := by
  unfold mean_amp_by_bin
  simp [show List.range 2 = [0, 1] from rfl, digitize_zero_two]

/-- C2 counterexample: with one sample of phase 0 and amplitude 4 and two
bins, the code's bin-amplitude vector is [1e-15, 4] while the claim's
(empty bins get 0) is [0, 4]. -/
theorem c2_empty_bin_cex :
    mean_amp_by_bin [0] [(4:ℝ)] 2 ≠ spec_mean_amp_zero [0] [(4:ℝ)] 2 := by
  have h1 : mean_amp_by_bin [0] [(4:ℝ)] 2 = [1e-15, 4] := mean_amp_single_sample 4
  have h2 : spec_mean_amp_zero [0] [(4:ℝ)] 2 = [0, 4] := by
    unfold spec_mean_amp_zero specBinVals
    have hb0 : ¬ ((0:ℝ) < binEdge 2 1) := by
      rw [binEdge_two_one]
      exact lt_irrefl 0
    have hb1 : binEdge 2 1 ≤ (0:ℝ) := by rw [binEdge_two_one]
    have hb2 : (0:ℝ) < binEdge 2 2 := by rw [binEdge_two_two]; exact Real.pi_pos
    simp [show List.range 2 = [0, 1] from rfl, hb0, hb1, hb2]
  rw [h1, h2]
  intro hc
  simp only [List.cons.injEq] at hc
  norm_num at hc

theorem log_ge_one_sub_inv (y : ℝ) (hy : 0 < y) : 1 - 1 / y ≤ Real.log y := by
  have h := Real.log_le_sub_one_of_pos (show (0:ℝ) < y⁻¹ by positivity)
  rw [Real.log_inv] at h
  have h2 : 1 - y⁻¹ ≤ Real.log y := by linarith
  simpa [one_div] using h2

theorem list_sum_map_add (l : List ℝ) (f g : ℝ → ℝ) :
    (l.map (fun x => f x + g x)).sum = (l.map f).sum + (l.map g).sum := by
  induction l with
  | nil => simp
  | cons a t ih =>
    simp only [List.map_cons, List.sum_cons, ih]
    ring

theorem list_sum_map_sub (l : List ℝ) (f g : ℝ → ℝ) :
    (l.map (fun x => f x - g x)).sum = (l.map f).sum - (l.map g).sum := by
  induction l with
  | nil => simp
  | cons a t ih =>
    simp only [List.map_cons, List.sum_cons, ih]
    ring

theorem list_sum_map_mul_const (l : List ℝ) (c : ℝ) :
    (l.map (fun x => x * c)).sum = l.sum * c := by
  induction l with
  | nil => simp
  | cons a t ih =>
    simp only [List.map_cons, List.sum_cons, ih]
    ring

theorem list_sum_map_div_const (l : List ℝ) (c : ℝ) :
    (l.map (fun x => x / c)).sum = l.sum / c := by
  simpa [div_eq_mul_inv] using list_sum_map_mul_const l c⁻¹

theorem list_sum_map_neg (l : List ℝ) (f : ℝ → ℝ) :
    (l.map (fun x => -(f x))).sum = -((l.map f).sum) := by
  induction l with
  | nil => simp
  | cons a t ih =>
    simp only [List.map_cons, List.sum_cons, ih]
    ring

theorem list_sum_map_const_real (l : List ℝ) (c : ℝ) :
    (l.map (fun _ => c)).sum = l.length * c := by
  induction l with
  | nil => simp
  | cons a t ih =>
    simp only [List.map_cons, List.sum_cons, ih, List.length_cons]
    push_cast
    ring

theorem mean_amp_nonneg (phase_series amplitude_series : List ℝ) (n : ℕ)
    (hamp : ∀ a ∈ amplitude_series, 0 ≤ a) :
    ∀ a ∈ mean_amp_by_bin phase_series amplitude_series n, 0 ≤ a := by
  intro a ha
  unfold mean_amp_by_bin at ha
  obtain ⟨j, hj, rfl⟩ := List.mem_map.mp ha
  dsimp only
  split
  · norm_num
  · apply div_nonneg
    · apply List.sum_nonneg
      intro y hy
      obtain ⟨pa, hpa, rfl⟩ := List.mem_map.mp hy
      have hmem := (List.mem_filter.mp hpa).1
      obtain ⟨p1, p2⟩ := pa
      have := List.of_mem_zip hmem
      exact hamp p2 this.2
    · positivity

theorem p_norm_sum (phase_series amplitude_series : List ℝ) (n : ℕ)
    (hsum : (mean_amp_by_bin phase_series amplitude_series n).sum ≠ 0) :
    (p_norm phase_series amplitude_series n).sum = 1 := by
  unfold p_norm
  rw [list_sum_map_div_const]
  exact div_self hsum

theorem p_norm_length (phase_series amplitude_series : List ℝ) (n : ℕ) :
    (p_norm phase_series amplitude_series n).length = n := by
  simp [p_norm, mean_amp_by_bin]

/-- C5 amended: with n_bins >= 2 and nonnegative amplitudes, MI >= 0 holds
whenever some bin amplitude is positive, and MI <= 1 holds under the further
condition that every normalized bin weight stays at least 1e-15 below 1; the
unconditional upper bound fails (see the counterexample). -/
theorem c5_mi_range_amended (phase_series amplitude_series : List ℝ) (n_bins : ℕ)
    (hn : 2 ≤ n_bins) (hamp : ∀ a ∈ amplitude_series, 0 ≤ a)
    (hsum : 0 < (mean_amp_by_bin phase_series amplitude_series n_bins).sum) :
    0 ≤ modulation_index phase_series amplitude_series n_bins
    ∧ ((∀ q ∈ p_norm phase_series amplitude_series n_bins, q + 1e-15 ≤ 1) →
        modulation_index phase_series amplitude_series n_bins ≤ 1) := by
  have hn1 : (1:ℝ) < (n_bins:ℝ) := by exact_mod_cast (by omega : 1 < n_bins)
  have hn0 : (0:ℝ) < (n_bins:ℝ) := by linarith
  have hlogn : 0 < Real.log n_bins := Real.log_pos hn1
  have hqnn : ∀ q ∈ p_norm phase_series amplitude_series n_bins, 0 ≤ q := by
    intro q hq
    unfold p_norm at hq
    obtain ⟨a, ha, rfl⟩ := List.mem_map.mp hq
    exact div_nonneg (mean_amp_nonneg _ _ _ hamp a ha) (le_of_lt hsum)
  have hpsum : (p_norm phase_series amplitude_series n_bins).sum = 1 :=
    p_norm_sum _ _ _ (ne_of_gt hsum)
  have hplen : (p_norm phase_series amplitude_series n_bins).length = n_bins :=
    p_norm_length _ _ _
  set p := p_norm phase_series amplitude_series n_bins with hpdef
  have hH_le : entropyH p ≤ Real.log n_bins := by
    unfold entropyH
    have hpt : ∀ q ∈ p, -(q * Real.log (q + 1e-15))
        ≤ q * Real.log n_bins + (q / (n_bins * (q + 1e-15)) - q) := by
      intro q hq
      have hq0 := hqnn q hq
      have hqe : (0:ℝ) < q + 1e-15 := by positivity
      have harg : (0:ℝ) < 1 / ((n_bins:ℝ) * (q + 1e-15)) := by positivity
      have hlb := Real.log_le_sub_one_of_pos harg
      rw [show Real.log (1 / ((n_bins:ℝ) * (q + 1e-15)))
          = -(Real.log n_bins + Real.log (q + 1e-15)) from by
        rw [one_div, Real.log_inv, Real.log_mul (ne_of_gt hn0) (ne_of_gt hqe)]] at hlb
      have h2 := mul_le_mul_of_nonneg_left hlb hq0
      have h3 : q * (1 / ((n_bins:ℝ) * (q + 1e-15))) = q / (n_bins * (q + 1e-15)) := by
        ring
      nlinarith [h2]
    have hsum_le := List.sum_le_sum hpt
    have hsplit : (p.map (fun q => q * Real.log n_bins
        + (q / ((n_bins:ℝ) * (q + 1e-15)) - q))).sum
        = (p.map (fun q => q * Real.log n_bins)).sum
          + ((p.map (fun q => q / ((n_bins:ℝ) * (q + 1e-15)))).sum
            - (p.map (fun q => q)).sum) := by
      rw [list_sum_map_add, list_sum_map_sub]
    have hlin : (p.map (fun q => q * Real.log n_bins)).sum = Real.log n_bins := by
      rw [list_sum_map_mul_const, hpsum, one_mul]
    have hid : (p.map (fun q => q)).sum = 1 := by
      rw [show (p.map (fun q => q)) = p from by simp, hpsum]
    have hfrac : (p.map (fun q => q / ((n_bins:ℝ) * (q + 1e-15)))).sum ≤ 1 := by
      have hstep : (p.map (fun q => q / ((n_bins:ℝ) * (q + 1e-15)))).sum
          ≤ (p.map (fun _ => 1 / (n_bins:ℝ))).sum := by
        apply List.sum_le_sum
        intro q hq
        have hq0 := hqnn q hq
        have hqe : (0:ℝ) < q + 1e-15 := by positivity
        rw [div_le_div_iff₀ (by positivity) hn0]
        nlinarith
      have hconst : (p.map (fun _ => 1 / (n_bins:ℝ))).sum = 1 := by
        rw [list_sum_map_const_real, hplen]
        field_simp
      linarith
    have hneg : (p.map (fun q => -(q * Real.log (q + 1e-15)))).sum
        = -((p.map (fun q => q * Real.log (q + 1e-15))).sum) :=
      list_sum_map_neg p _
    rw [hsplit, hlin, hid] at hsum_le
    rw [hneg] at hsum_le
    linarith
  constructor
  · unfold modulation_index
    apply div_nonneg _ (le_of_lt hlogn)
    rw [← hpdef]
    linarith
  · intro hqe1
    unfold modulation_index
    rw [div_le_one hlogn]
    have hH_nn : 0 ≤ entropyH p := by
      have h1 : 0 ≤ (p.map (fun q => -(q * Real.log (q + 1e-15)))).sum := by
        apply List.sum_nonneg
        intro y hy
        obtain ⟨q, hq, rfl⟩ := List.mem_map.mp hy
        have hq0 := hqnn q hq
        have hle := hqe1 q hq
        have hlognp : Real.log (q + 1e-15) ≤ 0 :=
          Real.log_nonpos (by positivity) (by linarith)
        nlinarith
      rw [list_sum_map_neg] at h1
      unfold entropyH
      linarith
    rw [← hpdef]
    linarith

theorem c5_mi_range_amended_witness :
    2 ≤ 2 ∧ (∀ a ∈ ([4] : List ℝ), 0 ≤ a)
    ∧ 0 < (mean_amp_by_bin [0] [(4:ℝ)] 2).sum
    ∧ (0 ≤ modulation_index [0] [(4:ℝ)] 2
      ∧ ((∀ q ∈ p_norm [0] [(4:ℝ)] 2, q + 1e-15 ≤ 1) →
          modulation_index [0] [(4:ℝ)] 2 ≤ 1)) := by
  have hsum : 0 < (mean_amp_by_bin [0] [(4:ℝ)] 2).sum := by
    rw [mean_amp_single_sample 4]
    norm_num
  have hamp : ∀ a ∈ ([4] : List ℝ), 0 ≤ a := by
    intro a ha
    simp at ha
    norm_num [ha]
  exact ⟨le_refl 2, hamp, hsum, c5_mi_range_amended [0] [(4:ℝ)] 2 (le_refl 2) hamp hsum⟩

/-- C5 counterexample: one sample with phase 0 and amplitude 1e20, two bins:
the empty bin's 1e-15 fill makes the top normalized weight exceed 1 - 1e-15,
the epsilon inside the log then makes the entropy negative, and the
Modulation Index exceeds 1. -/
theorem c5_mi_above_one_cex :
    1 < modulation_index [0] [(1e20:ℝ)] 2 := by
  have hm := mean_amp_single_sample (1e20:ℝ)
  unfold modulation_index p_norm
  rw [hm]
  have hlog2 : 0 < Real.log 2 := Real.log_pos (by norm_num)
  rw [show ((2:ℕ):ℝ) = (2:ℝ) by norm_num]
  rw [one_lt_div hlog2]
  unfold entropyH
  simp only [List.map_cons, List.map_nil, List.sum_cons, List.sum_nil]
  set S : ℝ := 1e-15 + (1e20 + 0) with hS
  set q1 : ℝ := 1e-15 / S with hq1
  set q2 : ℝ := 1e20 / S with hq2
  have hSval : S = 1e20 + 1e-15 := by rw [hS]; ring
  have hSpos : (0:ℝ) < S := by rw [hSval]; norm_num
  have hq1pos : 0 < q1 := by rw [hq1]; positivity
  have hq2pos : 0 < q2 := by rw [hq2]; positivity
  have hu1 : (0:ℝ) < q1 + 1e-15 := by positivity
  have hu2 : (0:ℝ) < q2 + 1e-15 := by positivity
  have hl1 : q1 * (1 - 1 / (q1 + 1e-15)) ≤ q1 * Real.log (q1 + 1e-15) :=
    mul_le_mul_of_nonneg_left (log_ge_one_sub_inv _ hu1) (le_of_lt hq1pos)
  have hl2 : q2 * (1 - 1 / (q2 + 1e-15)) ≤ q2 * Real.log (q2 + 1e-15) :=
    mul_le_mul_of_nonneg_left (log_ge_one_sub_inv _ hu2) (le_of_lt hq2pos)
  have hn1 : (-1e-20 : ℝ) ≤ q1 * (1 - 1 / (q1 + 1e-15)) := by
    rw [hq1, hSval]
    norm_num
  have hn2 : (2e-16 : ℝ) ≤ q2 * (1 - 1 / (q2 + 1e-15)) := by
    rw [hq2, hSval]
    norm_num
  have hT : 0 < q1 * Real.log (q1 + 1e-15) + (q2 * Real.log (q2 + 1e-15) + 0) := by
    nlinarith
  linarith

mutual

theorem clean_no_nan : ∀ v : PyVal, hasNan (clean_nans v) = false
  | .float _ => rfl
  | .nan => rfl
  | .pynone => rfl
  | .int _ => rfl
  | .str _ => rfl
  | .dict entries => by
      simp only [clean_nans, hasNan]
      exact cleanEntries_no_nan entries
  | .list elems => by
      simp only [clean_nans, hasNan]
      exact cleanList_no_nan elems
  | .array elems => by
      simp only [clean_nans, hasNan]
      exact cleanList_no_nan elems

theorem cleanEntries_no_nan : ∀ l : List (String × PyVal),
    entriesHasNan (cleanEntries l) = false
  | [] => rfl
  | (k, v) :: rest => by
      simp only [cleanEntries, entriesHasNan]
      rw [clean_no_nan v, cleanEntries_no_nan rest]
      rfl

theorem cleanList_no_nan : ∀ l : List PyVal, listHasNan (cleanList l) = false
  | [] => rfl
  | v :: rest => by
      simp only [cleanList, listHasNan]
      rw [clean_no_nan v, cleanList_no_nan rest]
      rfl

end

mutual

theorem clean_id : ∀ v : PyVal, hasNan v = false → hasArray v = false →
    clean_nans v = v
  | .float _, _, _ => rfl
  | .pynone, _, _ => rfl
  | .int _, _, _ => rfl
  | .str _, _, _ => rfl
  | .nan, h, _ => by simp [hasNan] at h
  | .array _, _, h => by simp [hasArray] at h
  | .dict entries, h1, h2 => by
      simp only [hasNan] at h1
      simp only [hasArray] at h2
      simp only [clean_nans]
      rw [cleanEntries_id entries h1 h2]
  | .list elems, h1, h2 => by
      simp only [hasNan] at h1
      simp only [hasArray] at h2
      simp only [clean_nans]
      rw [cleanList_id elems h1 h2]

theorem cleanEntries_id : ∀ l : List (String × PyVal),
    entriesHasNan l = false → entriesHasArray l = false → cleanEntries l = l
  | [], _, _ => rfl
  | (k, v) :: rest, h1, h2 => by
      simp only [entriesHasNan, Bool.or_eq_false_iff] at h1
      simp only [entriesHasArray, Bool.or_eq_false_iff] at h2
      simp only [cleanEntries]
      rw [clean_id v h1.1 h2.1, cleanEntries_id rest h1.2 h2.2]

theorem cleanList_id : ∀ l : List PyVal,
    listHasNan l = false → listHasArray l = false → cleanList l = l
  | [], _, _ => rfl
  | v :: rest, h1, h2 => by
      simp only [listHasNan, Bool.or_eq_false_iff] at h1
      simp only [listHasArray, Bool.or_eq_false_iff] at h2
      simp only [cleanList]
      rw [clean_id v h1.1 h2.1, cleanList_id rest h1.2 h2.2]

end

/-- C8: the tree returned by calculate_hierarchical_means contains no raw
float NaN anywhere, whatever the four family processors do — the final
recursive _clean_nans pass replaces every NaN (also nested inside dicts,
lists and converted numpy arrays) with None; and _clean_nans leaves every
NaN-free, array-free tree exactly unchanged. -/
theorem c8_no_nan_at_boundary :
    (∀ procPac procPsd procCoh procComod : PyVal → PyVal, ∀ v : PyVal,
      hasNan (calculate_hierarchical_means procPac procPsd procCoh procComod v)
        = false)
    ∧ (∀ v : PyVal, hasNan v = false → hasArray v = false → clean_nans v = v) := by
  constructor
  · intro p1 p2 p3 p4 v
    unfold calculate_hierarchical_means
    exact clean_no_nan _
  · exact clean_id

theorem c8_no_nan_at_boundary_witness :
    hasNan (calculate_hierarchical_means id id id id
        (PyVal.dict [("pac_results", PyVal.list [PyVal.nan, PyVal.float 1])]))
      = false
    ∧ hasNan (PyVal.dict [("a", PyVal.float 1)]) = false
    ∧ hasArray (PyVal.dict [("a", PyVal.float 1)]) = false
    ∧ clean_nans (PyVal.dict [("a", PyVal.float 1)])
      = PyVal.dict [("a", PyVal.float 1)] :=
  ⟨c8_no_nan_at_boundary.1 id id id id _, rfl, rfl,
    c8_no_nan_at_boundary.2 _ rfl rfl⟩

theorem c9_empty_groups_witness :
    pacTimeLevel [("grand_mean", [("MI", (1:ℚ))]), ("0-10s_sliding", [("MI", 2)])] = none
    ∧ cohTimeLevel [("mean_across_time", CohSlice.mk (some [1])),
        ("0-10s", CohSlice.mk none)] = none :=
  ⟨c9_empty_groups.1 _ (by decide), c9_empty_groups.2.2.2.1 _ (by decide)⟩

end SpecApp
